import Mathlib

/-!
Shallow embedding of the ai-tax-assistant frontend core: the SSE stream
parser (`streamMessage` in the API service module), the chat hook
(`useChat`: `sendMessage`, `clearChat`) and the documents hook
(`useDocuments.remove`), together with proofs of the specification
claims about them.  JavaScript strings are embedded as `String`
(`List Char` for the byte-level parser), `undefined`-able fields as
`Option`, and React state updates as explicit state passing.
-/

namespace AiTax

/-- Provenance tag of a document (`source_type` in the frontend types). -/
inductive SourceType where
  | irs
  | user
deriving DecidableEq

/-- A retrieved source passage (`Source` in the frontend types).  The
similarity `score` is a JS number that the client never computes with;
it is embedded as a rational. -/
structure Source where
  text : String
  source : String
  chunk_index : Nat
  score : Rat
  page : Option Nat := none
deriving DecidableEq

/-- Role of a chat message. -/
inductive Role where
  | user
  | assistant
deriving DecidableEq

/-- A chat message (`Message` in the frontend types). -/
structure Message where
  id : String
  role : Role
  content : String
  sources : Option (List Source) := none
  isStreaming : Option Bool := none
deriving DecidableEq

/-- The discriminant of a protocol event. -/
inductive EventType where
  | sources
  | chunk
  | done
  | error
deriving DecidableEq

/-- A streaming protocol event (`StreamEvent` in the frontend types);
absent optional fields are `none`. -/
structure StreamEvent where
  type : EventType
  sources : Option (List Source) := none
  session_id : Option String := none
  content : Option String := none
  message : Option String := none
deriving DecidableEq

/-- JavaScript `s || d` on an optional string: an absent or empty string
is falsy and yields the default. -/
def jsOrStr : Option String → String → String
  | some s, d => if s = "" then d else s
  | none, d => d

/-- JavaScript `s.trim()`: remove leading and trailing whitespace. -/
def jsTrim (s : String) : String :=
  ⟨((s.data.dropWhile Char.isWhitespace).reverse.dropWhile Char.isWhitespace).reverse⟩

/-- A document record (`Document` in the frontend types). -/
structure Document where
  id : String
  filename : String
  source_type : SourceType
  chunk_count : Nat
  uploaded_at : String
deriving DecidableEq

/-! ## The SSE stream parser (`streamMessage` in the API service) -/

/-- JavaScript `buffer.split('\n')` followed by `buffer = lines.pop()`:
the first component is the complete (newline-terminated) lines in order,
the second is the trailing segment after the last newline. -/
def splitLines : List Char → List (List Char) × List Char
  | [] => ([], [])
  | c :: rest =>
    if c = '\n' then ([] :: (splitLines rest).1, (splitLines rest).2)
    else
      match (splitLines rest).1 with
      | [] => ([], c :: (splitLines rest).2)
      | l :: ls => ((c :: l) :: ls, (splitLines rest).2)

/-- One line of the SSE body: a line starting with `"data: "` is JSON
parsed (`JSON.parse` is abstracted as the `parse` argument, `none`
meaning a parse error, which the source swallows); other lines are
ignored. -/
def handleLine (parse : List Char → Option StreamEvent) (line : List Char) : Option StreamEvent :=
  if line.take 6 = ("data: ".toList) then parse (line.drop 6) else none

/-- The read loop of `streamMessage`: `buffer` is the carried-over
partial line; each read chunk is appended to it and split at newlines,
the complete lines are handled in order and the last segment becomes the
new buffer.  The events yielded across the whole loop are returned in
order; the final buffer is discarded at end-of-stream. -/
def streamLoop (parse : List Char → Option StreamEvent) (buffer : List Char) :
    List (List Char) → List StreamEvent
  | [] => []
  | c :: cs =>
    (splitLines (buffer ++ c)).1.filterMap (handleLine parse)
      ++ streamLoop parse (splitLines (buffer ++ c)).2 cs

/-- `streamMessage` (API service): parse an SSE stream delivered as a
sequence of read chunks, starting from an empty buffer. -/
def streamMessage (parse : List Char → Option StreamEvent) (reads : List (List Char)) :
    List StreamEvent :=
  streamLoop parse [] reads

/-- Specification-side description for claim C9, following the claim's
words: the events of a stream are the JSON values of its
newline-terminated lines that begin with `"data: "`, in stream order;
unparseable lines are skipped and the trailing unterminated segment
contributes nothing. -/
def specStreamEvents (parse : List Char → Option StreamEvent) (s : List Char) : List StreamEvent :=
  (splitLines s).1.filterMap (handleLine parse)

/-! ## The chat hook (`useChat`) -/

/-- The `useChat` state: the five `useState` cells of the hook. -/
structure ChatState where
  messages : List Message
  isLoading : Bool
  sessionId : Option String
  currentSources : List Source
  error : Option String
deriving DecidableEq

/-- The initial `useState` values of `useChat`. -/
def initialChatState : ChatState :=
  { messages := [], isLoading := false, sessionId := none, currentSources := [], error := none }

/-- The arguments of the `streamMessage(content, sessionId)` network
request issued by `sendMessage`. -/
structure ChatRequest where
  query : String
  session_id : Option String
deriving DecidableEq

/-- The local accumulator of `sendMessage`'s event loop (`fullContent`
and the local `sources` variable). -/
structure LoopAcc where
  fullContent : String
  sources : List Source
deriving DecidableEq

/-- Outcome of the `for await` event loop: normal completion, or a
thrown error (the `error` event case throws) with the state at the
throw. -/
inductive LoopResult where
  | ok (acc : LoopAcc) (st : ChatState)
  | thrown (msg : String) (st : ChatState)
deriving DecidableEq

/-- The state carried by a loop outcome. -/
def loopState : LoopResult → ChatState
  | .ok _ st => st
  | .thrown _ st => st

/-- The `for await` loop body of `useChat.sendMessage`, one event at a
time: `sources` stores the passage list and (when truthy) the session
id, `chunk` appends the increment and rewrites the assistant message,
`done` marks the assistant message finished with the stored sources,
`error` throws `event.message || 'Unknown error'`. -/
def runLoop (assistantId : String) (acc : LoopAcc) (st : ChatState) :
    List StreamEvent → LoopResult
  | [] => .ok acc st
  | e :: rest =>
    match e.type with
    | .sources =>
      runLoop assistantId { acc with sources := e.sources.getD [] }
        { st with currentSources := e.sources.getD [],
                  sessionId :=
                    match e.session_id with
                    | some s => if s = "" then st.sessionId else some s
                    | none => st.sessionId } rest
    | .chunk =>
      runLoop assistantId { acc with fullContent := acc.fullContent ++ jsOrStr e.content "" }
        { st with messages := st.messages.map (fun m =>
            if m.id = assistantId
            then { m with content := acc.fullContent ++ jsOrStr e.content "" }
            else m) } rest
    | .done =>
      runLoop assistantId acc
        { st with messages := st.messages.map (fun m =>
            if m.id = assistantId
            then { m with isStreaming := some false, sources := some acc.sources }
            else m) } rest
    | .error => .thrown (jsOrStr e.message "Unknown error") st

/-- The id `` `user-${Date.now()}` `` of the turn's user message. -/
def userIdOf (now : Nat) : String := "user-" ++ toString now

/-- The id `` `assistant-${Date.now()}` `` of the turn's assistant message. -/
def assistantIdOf (now : Nat) : String := "assistant-" ++ toString now

/-- The user message appended by `sendMessage` (trimmed content). -/
def userMessageOf (now : Nat) (content : String) : Message :=
  { id := userIdOf now, role := .user, content := jsTrim content }

/-- The assistant placeholder appended by `sendMessage`. -/
def assistantMessageOf (now : Nat) : Message :=
  { id := assistantIdOf now, role := .assistant, content := "", isStreaming := some true }

/-- The state after the opening of an accepted `sendMessage`: error
cleared, user message appended, loading set, assistant placeholder
appended. -/
def startTurn (now : Nat) (content : String) (st : ChatState) : ChatState :=
  { st with error := none, isLoading := true,
            messages := st.messages ++ [userMessageOf now content, assistantMessageOf now] }

/-- The `catch` handler of `sendMessage`: store the error message and
replace the assistant message's content with `Error: <message>`, ending
its streaming flag. -/
def catchTurn (aid : String) (m : String) (s : ChatState) : ChatState :=
  { s with error := some m,
           messages := s.messages.map (fun msg =>
             if msg.id = aid
             then { msg with content := "Error: " ++ m, isStreaming := some false }
             else msg) }

/-- The tail of `sendMessage`: the `catch` applies only to a thrown loop,
the `finally` clears the loading flag in both outcomes. -/
def finishTurn (aid : String) : LoopResult → ChatState
  | .ok _ s => { s with isLoading := false }
  | .thrown m s => { catchTurn aid m s with isLoading := false }

/-- `useChat.sendMessage`: `now` is `Date.now()` and `evs` the events the
stream yields for this turn.  Guard: an empty trimmed query or an
in-flight turn returns with no work and no request.  Otherwise the turn
is opened, the request is issued with the untrimmed query and the
current session id, the event loop runs and the turn is finished.
Returns the new state and the request issued, if any. -/
def sendMessage (now : Nat) (content : String) (evs : List StreamEvent) (st : ChatState) :
    ChatState × Option ChatRequest :=
  if jsTrim content = "" ∨ st.isLoading then (st, none)
  else
    ( finishTurn (assistantIdOf now)
        (runLoop (assistantIdOf now) { fullContent := "", sources := [] }
          (startTurn now content st) evs),
      some { query := content, session_id := st.sessionId } )

/-- `useChat.clearChat`: asks the backend to clear the history only when
a session id is present (second component), ignores any backend failure
(`backendFails` does not influence the outcome), then resets messages,
sources, session id and error. -/
def clearChat (_backendFails : Bool) (st : ChatState) : ChatState × Option String :=
  ( { st with messages := [], currentSources := [], sessionId := none, error := none },
    st.sessionId )

/-- The session id stored after the loop has processed a list of events:
`sources` events with a truthy `session_id` overwrite it; processing
stops at the first `error` event. -/
def updSid : Option String → List StreamEvent → Option String
  | sid, [] => sid
  | sid, e :: rest =>
    match e.type with
    | .error => sid
    | .sources =>
      updSid (match e.session_id with
              | some s => if s = "" then sid else some s
              | none => sid) rest
    | .chunk => updSid sid rest
    | .done => updSid sid rest

/-! ## The documents hook (`useDocuments`) -/

/-- The `useDocuments` state: the five `useState` cells of the hook. -/
structure DocumentsState where
  documents : List Document
  isLoading : Bool
  isUploading : Bool
  isIngesting : Bool
  error : Option String
deriving DecidableEq

/-- The success path of `useDocuments.remove`: clear the error, then
keep exactly the documents whose id differs from the deleted one
(`prev.filter(d => d.id !== docId)`). -/
def removeDocument (docId : String) (st : DocumentsState) : DocumentsState :=
  { st with error := none, documents := st.documents.filter (fun d => d.id != docId) }

/-! ## Derived and specification-side definitions -/

/-- Prepend a pending partial segment to the head of a line list. -/
def consHd (r : List Char) : List (List Char) → List (List Char)
  | [] => []
  | h :: t => (r ++ h) :: t

/-- The concatenation, in arrival order, of the `content` fields of a
list of events, an absent field contributing the empty string (the
specification-side description of the accumulated answer in claim C2). -/
def concatContents (evs : List StreamEvent) : String :=
  evs.foldr (fun e r => e.content.getD "" ++ r) ""

/-- No `sources` event occurs after a `chunk` event. -/
def sourcesPrecedeChunks : List StreamEvent → Bool
  | [] => true
  | e :: rest =>
    (if e.type = .chunk then rest.all (fun x => decide (x.type ≠ .sources)) else true)
      && sourcesPrecedeChunks rest

/-- The stream is nonempty, its last event is `done` or `error`, and no
earlier event is `done` or `error`. -/
def terminalLast : List StreamEvent → Bool
  | [] => false
  | [e] => decide (e.type = .done ∨ e.type = .error)
  | e :: f :: rs => decide (e.type ≠ .done ∧ e.type ≠ .error) && terminalLast (f :: rs)

/-- Modelled from the spec: the backend producer of a turn's event
stream is not part of the sources under verification (only the frontend
consumer is), so the stream shape is taken from the spec's protocol
section: the `sources` event precedes all `chunk` events, and exactly
one of `done`/`error` is emitted per turn, always last, with no event of
the turn after it. -/
def WellFormedTurnStream (evs : List StreamEvent) : Prop :=
  sourcesPrecedeChunks evs = true ∧ terminalLast evs = true

/-! ## Lemmas about the SSE parser -/

theorem splitLines_append (a b : List Char) :
    splitLines (a ++ b) =
      ((splitLines a).1 ++ consHd (splitLines a).2 (splitLines b).1,
       if (splitLines b).1 = [] then (splitLines a).2 ++ (splitLines b).2
       else (splitLines b).2) := by
  induction a with
  | nil =>
    rcases hb : (splitLines b).1 with _ | ⟨h, t⟩ <;>
      simp [splitLines, consHd, hb, Prod.ext_iff]
  | cons c a' ih =>
    by_cases hc : c = '\n'
    · subst hc
      rcases hb : (splitLines b).1 with _ | ⟨h, t⟩ <;>
        simp [splitLines, consHd, hb, ih]
    · rcases h1 : (splitLines a').1 with _ | ⟨l, ls⟩ <;>
        rcases hb : (splitLines b).1 with _ | ⟨h, t⟩ <;>
          simp [splitLines, hc, h1, hb, ih, consHd]

theorem not_nl_snd (s : List Char) : '\n' ∉ (splitLines s).2 := by
  induction s with
  | nil => simp [splitLines]
  | cons c rest ih =>
    by_cases hc : c = '\n'
    · subst hc; simpa [splitLines] using ih
    · rcases h1 : (splitLines rest).1 with _ | ⟨l, ls⟩ <;>
        simp [splitLines, hc, h1, ih]
      exact fun e => hc e.symm

theorem splitLines_of_not_nl (s : List Char) (h : '\n' ∉ s) : splitLines s = ([], s) := by
  induction s with
  | nil => simp [splitLines]
  | cons c rest ih =>
    rw [List.mem_cons] at h
    push_neg at h
    obtain ⟨h1, h2⟩ := h
    have hc : ¬ c = '\n' := fun e => h1 e.symm
    simp [splitLines, hc, ih h2]

theorem streamLoop_eq (parse : List Char → Option StreamEvent) (cs : List (List Char)) :
    ∀ buffer, '\n' ∉ buffer →
      streamLoop parse buffer cs
        = (splitLines (buffer ++ cs.flatten)).1.filterMap (handleLine parse) := by
  induction cs with
  | nil =>
    intro buffer hb
    simp [streamLoop, splitLines_of_not_nl _ hb]
  | cons c cs' ih =>
    intro buffer hb
    have hrest : '\n' ∉ (splitLines (buffer ++ c)).2 := not_nl_snd _
    have h1 : buffer ++ (c :: cs').flatten = (buffer ++ c) ++ cs'.flatten := by
      simp [List.append_assoc]
    rw [h1, splitLines_append (buffer ++ c) cs'.flatten]
    simp only [streamLoop]
    rw [ih _ hrest, splitLines_append ((splitLines (buffer ++ c)).2) cs'.flatten,
        splitLines_of_not_nl _ hrest]
    simp [List.filterMap_append]

/-! ## Lemmas about the chat event loop -/

theorem jsOrStr_getD (x : Option String) : jsOrStr x "" = x.getD "" := by
  cases x with
  | none => rfl
  | some s =>
    simp only [jsOrStr, Option.getD_some]
    split <;> simp_all

theorem runLoop_append (aid : String) (xs ys : List StreamEvent) :
    ∀ acc st, runLoop aid acc st (xs ++ ys)
      = match runLoop aid acc st xs with
        | .ok a s => runLoop aid a s ys
        | .thrown m s => .thrown m s := by
  induction xs with
  | nil => intro acc st; simp [runLoop]
  | cons e xs' ih =>
    intro acc st
    cases het : e.type <;> simp [runLoop, het, ih]

theorem runLoop_ok_of_no_error (aid : String) (xs : List StreamEvent) :
    ∀ acc st, (∀ e ∈ xs, e.type ≠ .error) →
      ∃ a s, runLoop aid acc st xs = .ok a s := by
  induction xs with
  | nil => intro acc st _; exact ⟨acc, st, rfl⟩
  | cons e xs' ih =>
    intro acc st h
    have he : e.type ≠ .error := h e (List.mem_cons_self e xs')
    have h' : ∀ x ∈ xs', x.type ≠ .error := fun x hx => h x (List.mem_cons_of_mem _ hx)
    cases het : e.type
    case error => exact absurd het he
    all_goals simp only [runLoop, het]
    all_goals exact ih _ _ h'

theorem map_keep (aid : String) (f : Message → Message) (pre : List Message)
    (h : ∀ m ∈ pre, m.id ≠ aid) :
    pre.map (fun m => if m.id = aid then f m else m) = pre := by
  induction pre with
  | nil => rfl
  | cons m pre' ih =>
    have hm : m.id ≠ aid := h m (List.mem_cons_self m pre')
    have h' : ∀ x ∈ pre', x.id ≠ aid := fun x hx => h x (List.mem_cons_of_mem _ hx)
    simp [hm, ih h']

theorem map_update (aid : String) (f : Message → Message) (pre : List Message) (a : Message)
    (h : ∀ m ∈ pre, m.id ≠ aid) (ha : a.id = aid) :
    (pre ++ [a]).map (fun m => if m.id = aid then f m else m) = pre ++ [f a] := by
  simp [List.map_append, map_keep aid f pre h, ha]

theorem runLoop_frame (aid : String) (evs : List StreamEvent) :
    ∀ acc pre a st, st.messages = pre ++ [a] → (∀ m ∈ pre, m.id ≠ aid) → a.id = aid →
      ∃ a', (loopState (runLoop aid acc st evs)).messages = pre ++ [a']
        ∧ a'.id = aid ∧ a'.role = a.role := by
  induction evs with
  | nil =>
    intro acc pre a st hmsg hfresh ha
    exact ⟨a, by simpa [runLoop, loopState] using hmsg, ha, rfl⟩
  | cons e rest ih =>
    intro acc pre a st hmsg hfresh ha
    cases het : e.type
    case sources =>
      simp only [runLoop, het]
      exact ih _ pre a _ hmsg hfresh ha
    case chunk =>
      simp only [runLoop, het]
      obtain ⟨a', h1, h2, h3⟩ := ih { acc with fullContent := acc.fullContent ++ jsOrStr e.content "" }
        pre { a with content := acc.fullContent ++ jsOrStr e.content "" }
        { st with messages := st.messages.map (fun m =>
            if m.id = aid
            then { m with content := acc.fullContent ++ jsOrStr e.content "" }
            else m) }
        (by rw [hmsg]; exact map_update aid _ pre a hfresh ha) hfresh ha
      exact ⟨a', h1, h2, h3⟩
    case done =>
      simp only [runLoop, het]
      obtain ⟨a', h1, h2, h3⟩ := ih acc
        pre { a with isStreaming := some false, sources := some acc.sources }
        { st with messages := st.messages.map (fun m =>
            if m.id = aid
            then { m with isStreaming := some false, sources := some acc.sources }
            else m) }
        (by rw [hmsg]; exact map_update aid _ pre a hfresh ha) hfresh ha
      exact ⟨a', h1, h2, h3⟩
    case error =>
      simp only [runLoop, het, loopState]
      exact ⟨a, hmsg, ha, rfl⟩

theorem runLoop_sid (aid : String) (evs : List StreamEvent) :
    ∀ acc st, (loopState (runLoop aid acc st evs)).sessionId = updSid st.sessionId evs := by
  induction evs with
  | nil => intro acc st; simp [runLoop, loopState, updSid]
  | cons e rest ih =>
    intro acc st
    cases het : e.type
    case error => simp [runLoop, het, loopState, updSid]
    all_goals simp only [runLoop, het]
    all_goals rw [ih]
    all_goals simp [updSid, het]

theorem runLoop_chunks (aid : String) (evs : List StreamEvent) :
    ∀ acc pre a st, (∀ e ∈ evs, e.type = .chunk) →
      st.messages = pre ++ [a] → (∀ m ∈ pre, m.id ≠ aid) → a.id = aid →
      a.content = acc.fullContent →
      runLoop aid acc st evs
        = .ok { fullContent := acc.fullContent ++ concatContents evs, sources := acc.sources }
            { st with messages :=
                pre ++ [{ a with content := acc.fullContent ++ concatContents evs }] } := by
  induction evs with
  | nil =>
    intro acc pre a st _ hmsg hfresh ha hcontent
    obtain ⟨fc, srcs⟩ := acc
    simp only [runLoop, concatContents, List.foldr_nil] at *
    have h1 : fc ++ "" = fc := by simp
    rw [h1]
    have h2 : { a with content := fc } = a := by
      cases a; simp_all
    rw [h2, ← hmsg]
  | cons e rest ih =>
    intro acc pre a st hc hmsg hfresh ha hcontent
    have het : e.type = .chunk := hc e (List.mem_cons_self e rest)
    have hrest : ∀ x ∈ rest, x.type = .chunk := fun x hx => hc x (List.mem_cons_of_mem _ hx)
    simp only [runLoop, het]
    rw [ih _ pre { a with content := acc.fullContent ++ jsOrStr e.content "" } _ hrest
      (by simp only [hmsg]; exact map_update aid _ pre a hfresh ha) hfresh ha rfl]
    have h1 : concatContents (e :: rest) = e.content.getD "" ++ concatContents rest := rfl
    simp [h1, jsOrStr_getD, String.append_assoc]

theorem userIdOf_ne_assistantIdOf (now : Nat) : userIdOf now ≠ assistantIdOf now := by
  intro h
  rw [userIdOf, assistantIdOf] at h
  have h2 := congrArg String.length h
  have h5 : "user-".length = 5 := rfl
  have h10 : "assistant-".length = 10 := rfl
  rw [String.length_append, String.length_append, h5, h10] at h2
  omega

theorem startTurn_fresh (now : Nat) (q : String) (st : ChatState)
    (hfresh : ∀ m ∈ st.messages, m.id ≠ assistantIdOf now) :
    ∀ m ∈ st.messages ++ [userMessageOf now q], m.id ≠ assistantIdOf now := by
  intro m hm
  rcases List.mem_append.mp hm with h | h
  · exact hfresh m h
  · simp only [List.mem_singleton] at h
    subst h
    exact userIdOf_ne_assistantIdOf now

theorem sendMessage_accepted (now : Nat) (q : String) (evs : List StreamEvent) (st : ChatState)
    (hq : ¬ jsTrim q = "") (hl : st.isLoading = false)
    (hfresh : ∀ m ∈ st.messages, m.id ≠ assistantIdOf now) :
    ∃ a, (sendMessage now q evs st).1.messages = st.messages ++ [userMessageOf now q, a]
      ∧ a.id = assistantIdOf now ∧ a.role = .assistant
      ∧ (sendMessage now q evs st).1.isLoading = false
      ∧ (sendMessage now q evs st).2 = some { query := q, session_id := st.sessionId } := by
  have hguard : ¬ (jsTrim q = "" ∨ st.isLoading = true) := by simp [hq, hl]
  rw [sendMessage, if_neg hguard]
  obtain ⟨a', hmsg', hid', hrole'⟩ :=
    runLoop_frame (assistantIdOf now) evs { fullContent := "", sources := [] }
      (st.messages ++ [userMessageOf now q]) (assistantMessageOf now) (startTurn now q st)
      (by simp [startTurn]) (startTurn_fresh now q st hfresh) rfl
  cases hr : runLoop (assistantIdOf now) { fullContent := "", sources := [] } (startTurn now q st) evs with
  | ok acc s =>
    rw [hr] at hmsg'
    simp only [loopState] at hmsg'
    exact ⟨a', by simpa [finishTurn, List.append_assoc] using hmsg', hid', hrole', rfl, rfl⟩
  | thrown m s =>
    rw [hr] at hmsg'
    simp only [loopState] at hmsg'
    refine ⟨{ a' with content := "Error: " ++ m, isStreaming := some false }, ?_, hid', hrole', rfl, rfl⟩
    simp only [finishTurn, catchTurn, hmsg',
      map_update (assistantIdOf now) _ _ _ (startTurn_fresh now q st hfresh) hid']
    simp [List.append_assoc]

/-- Claim C9: the SSE stream parser is invariant under re-chunking of the
byte stream: for every partition of a stream into read chunks,
`streamMessage` yields exactly the parses of the newline-terminated
lines that begin with `"data: "`, in stream order; lines that fail to
parse are skipped, and a trailing line not terminated by a newline
before end-of-stream is never yielded. -/
theorem claim_C9_rechunking_invariance (parse : List Char → Option StreamEvent)
    (reads : List (List Char)) :
    streamMessage parse reads = specStreamEvents parse reads.flatten := by
  have h := streamLoop_eq parse reads [] (by simp)
  simpa [streamMessage, specStreamEvents] using h

theorem sourcesPrecedeChunks_spec (evs : List StreamEvent)
    (h : sourcesPrecedeChunks evs = true) :
    ∀ pre c post, evs = pre ++ c :: post → c.type = .chunk → ∀ s ∈ post, s.type ≠ .sources := by
  induction evs with
  | nil =>
    intro pre c post heq
    exact absurd heq (by simp)
  | cons e rest ih =>
    intro pre c post heq hc s hs
    rw [sourcesPrecedeChunks, Bool.and_eq_true] at h
    obtain ⟨h1, h2⟩ := h
    cases pre with
    | nil =>
      simp only [List.nil_append, List.cons.injEq] at heq
      obtain ⟨he, hrest⟩ := heq
      subst he; subst hrest
      rw [if_pos hc, List.all_eq_true] at h1
      exact of_decide_eq_true (h1 s hs)
    | cons p pre' =>
      simp only [List.cons_append, List.cons.injEq] at heq
      exact ih h2 pre' c post heq.2 hc s hs

theorem terminalLast_spec (evs : List StreamEvent) (h : terminalLast evs = true) :
    ∃ pre tl, evs = pre ++ [tl] ∧ (tl.type = .done ∨ tl.type = .error)
      ∧ ∀ e ∈ pre, e.type ≠ .done ∧ e.type ≠ .error := by
  induction evs with
  | nil => simp [terminalLast] at h
  | cons e rest ih =>
    cases rest with
    | nil =>
      rw [terminalLast] at h
      exact ⟨[], e, rfl, of_decide_eq_true h, by simp⟩
    | cons f rs =>
      rw [terminalLast, Bool.and_eq_true] at h
      obtain ⟨h1, h2⟩ := h
      obtain ⟨pre, tl, heq, htl, hpre⟩ := ih h2
      refine ⟨e :: pre, tl, by rw [heq, List.cons_append], htl, ?_⟩
      intro x hx
      rcases List.mem_cons.mp hx with hx | hx
      · subst hx; exact of_decide_eq_true h1
      · exact hpre x hx

theorem finishTurn_sessionId (aid : String) (r : LoopResult) :
    (finishTurn aid r).sessionId = (loopState r).sessionId := by
  cases r <;> rfl

/-! ## The claims -/

/-- Claim C1: for every well-formed turn stream consumed by the chat
client, the `sources` event precedes all `chunk` events (no `sources`
event follows a `chunk` event), exactly one of `done`/`error` is the
final event, and the consumer processes no further event of the turn
after `done` or `error`: an `error` event terminates the event loop even
if more events were to follow, and after `done` the well-formed stream
holds no further event of the turn. -/
theorem claim_C1_event_order (evs : List StreamEvent) (h : WellFormedTurnStream evs) :
    (∀ pre c post, evs = pre ++ c :: post → c.type = .chunk → ∀ s ∈ post, s.type ≠ .sources)
      ∧ (∃ pre tl, evs = pre ++ [tl] ∧ (tl.type = .done ∨ tl.type = .error)
          ∧ ∀ e ∈ pre, e.type ≠ .done ∧ e.type ≠ .error)
      ∧ (∀ pre tl, evs = pre ++ [tl] → tl.type = .error →
          ∀ aid acc st post, runLoop aid acc st (evs ++ post) = runLoop aid acc st evs
            ∧ ∃ m s2, runLoop aid acc st evs = .thrown m s2) := by
  obtain ⟨h1, h2⟩ := h
  refine ⟨sourcesPrecedeChunks_spec evs h1, terminalLast_spec evs h2, ?_⟩
  intro pre tl heq htl aid acc st post
  obtain ⟨pre', tl', heq', htl', hpre'⟩ := terminalLast_spec evs h2
  have hinj : pre = pre' ∧ [tl] = [tl'] :=
    List.append_inj' (heq ▸ heq') rfl
  have hnoerr : ∀ e ∈ pre, e.type ≠ .error := fun e he => (hpre' e (hinj.1 ▸ he)).2
  obtain ⟨a2, s2, hok⟩ := runLoop_ok_of_no_error aid pre acc st hnoerr
  have hthr : runLoop aid acc st (pre ++ [tl])
      = .thrown (jsOrStr tl.message "Unknown error") s2 := by
    rw [runLoop_append aid pre [tl], hok]
    simp only [runLoop, htl]
  subst heq
  refine ⟨?_, _, s2, hthr⟩
  rw [List.append_assoc, runLoop_append aid pre ([tl] ++ post), hok, hthr]
  show runLoop aid a2 s2 ([tl] ++ post)
    = LoopResult.thrown (jsOrStr tl.message "Unknown error") s2
  rw [runLoop_append aid [tl] post]
  simp only [runLoop, htl]

theorem claim_C1_witness :
    runLoop "a" { fullContent := "", sources := [] } initialChatState
        ([⟨.sources, some [], some "s1", none, none⟩, ⟨.chunk, none, none, some "x", none⟩,
          ⟨.error, none, none, none, some "boom"⟩] ++ [⟨.chunk, none, none, some "y", none⟩])
      = runLoop "a" { fullContent := "", sources := [] } initialChatState
          [⟨.sources, some [], some "s1", none, none⟩, ⟨.chunk, none, none, some "x", none⟩,
           ⟨.error, none, none, none, some "boom"⟩] :=
  ((claim_C1_event_order
      [⟨.sources, some [], some "s1", none, none⟩, ⟨.chunk, none, none, some "x", none⟩,
       ⟨.error, none, none, none, some "boom"⟩]
      ⟨by decide, by decide⟩).2.2
    [⟨.sources, some [], some "s1", none, none⟩, ⟨.chunk, none, none, some "x", none⟩]
    ⟨.error, none, none, none, some "boom"⟩ rfl rfl
    "a" { fullContent := "", sources := [] } initialChatState
    [⟨.chunk, none, none, some "y", none⟩]).1

/-- Claim C4: turns on a session are serialized by the loading guard:
while a turn is in flight (`isLoading` is `true`) a second `sendMessage`
call performs no work and issues no request, and an accepted turn
appends its user and assistant messages after all existing messages (so
the message list holds turns in submission order) and ends with
`isLoading` `false` (the terminal state that lets the next turn start). -/
theorem claim_C4_turns_serialized (now : Nat) (q : String) (evs : List StreamEvent)
    (st : ChatState) :
    (st.isLoading = true → sendMessage now q evs st = (st, none))
      ∧ (st.isLoading = false → ¬ jsTrim q = "" →
          (∀ m ∈ st.messages, m.id ≠ assistantIdOf now) →
          ∃ a, (sendMessage now q evs st).1.messages
              = st.messages ++ [userMessageOf now q, a]
            ∧ (sendMessage now q evs st).1.isLoading = false) := by
  constructor
  · intro h
    rw [sendMessage, if_pos (Or.inr (by rw [h]))]
  · intro hl hq hf
    obtain ⟨a, ha1, _, _, ha4, _⟩ := sendMessage_accepted now q evs st hq hl hf
    exact ⟨a, ha1, ha4⟩

theorem claim_C4_witness :
    sendMessage 1 "hello" [] { initialChatState with isLoading := true }
      = ({ initialChatState with isLoading := true }, none) :=
  (claim_C4_turns_serialized 1 "hello" [] { initialChatState with isLoading := true }).1 rfl

/-- Claim C5: a query whose trimmed form is empty is rejected
synchronously, whatever the rest of the state: `sendMessage` issues no
network request and returns the chat state unchanged. -/
theorem claim_C5_empty_query_rejected (now : Nat) (q : String) (evs : List StreamEvent)
    (st : ChatState) (h : jsTrim q = "") :
    sendMessage now q evs st = (st, none) := by
  rw [sendMessage, if_pos (Or.inl h)]

theorem claim_C5_witness :
    sendMessage 0 "   " [⟨.chunk, none, none, some "x", none⟩] initialChatState
      = (initialChatState, none) :=
  claim_C5_empty_query_rejected 0 "   " [⟨.chunk, none, none, some "x", none⟩]
    initialChatState (by decide)

/-- Claim C6: `clearChat` is idempotent and total: after any call the
messages, sources, session id and error are empty, no backend call is
made when no session exists, a failing backend call does not change the
outcome (the failure flag is irrelevant), and clearing twice equals
clearing once. -/
theorem claim_C6_clear_idempotent (b b' : Bool) (st : ChatState) :
    (clearChat b st).1.messages = []
      ∧ (clearChat b st).1.currentSources = []
      ∧ (clearChat b st).1.sessionId = none
      ∧ (clearChat b st).1.error = none
      ∧ (st.sessionId = none → (clearChat b st).2 = none)
      ∧ (clearChat b' (clearChat b st).1).1 = (clearChat b st).1 := by
  exact ⟨rfl, rfl, rfl, rfl, fun h => h, rfl⟩

theorem claim_C6_witness :
    (clearChat true { initialChatState with isLoading := true }).2 = none :=
  (claim_C6_clear_idempotent true false { initialChatState with isLoading := true }).2.2.2.2.1 rfl

/-- Claim C8: deleting a document by id affects only the named document:
on success the resulting list contains no document with that id, every
document with a different id is still present, and the list is a sublist
of the original (so surviving documents are unchanged and in order). -/
theorem claim_C8_delete_by_id (st : DocumentsState) (docId : String) :
    (∀ d ∈ (removeDocument docId st).documents, d.id ≠ docId)
      ∧ (∀ d ∈ st.documents, d.id ≠ docId → d ∈ (removeDocument docId st).documents)
      ∧ ((removeDocument docId st).documents).Sublist st.documents := by
  refine ⟨?_, ?_, List.filter_sublist _⟩
  · intro d hd
    have h := List.of_mem_filter hd
    simpa [bne_iff_ne] using h
  · intro d hd hne
    exact List.mem_filter.mpr ⟨hd, by simpa [bne_iff_ne] using hne⟩

theorem claim_C8_witness :
    (⟨"b", "b.pdf", .user, 1, "t1"⟩ : Document)
      ∈ (removeDocument "a"
          ⟨[⟨"a", "a.pdf", .irs, 2, "t0"⟩, ⟨"b", "b.pdf", .user, 1, "t1"⟩],
            false, false, false, none⟩).documents :=
  (claim_C8_delete_by_id
      ⟨[⟨"a", "a.pdf", .irs, 2, "t0"⟩, ⟨"b", "b.pdf", .user, 1, "t1"⟩],
        false, false, false, none⟩ "a").2.1
    ⟨"b", "b.pdf", .user, 1, "t1"⟩ (by decide) (by decide)

/-- Claim C10: an accepted `sendMessage` call appends exactly two
messages — the user message with the trimmed query, then the assistant
placeholder — and every event of the turn modifies only the assistant
message with the turn's id, so all messages that existed before the turn
are unchanged after it (the turn's fresh id clashes with no existing
message id). -/
theorem claim_C10_turn_frame (now : Nat) (q : String) (evs : List StreamEvent)
    (st : ChatState) (hq : ¬ jsTrim q = "") (hl : st.isLoading = false)
    (hfresh : ∀ m ∈ st.messages, m.id ≠ assistantIdOf now) :
    ∃ a, (sendMessage now q evs st).1.messages = st.messages ++ [userMessageOf now q, a]
      ∧ a.id = assistantIdOf now ∧ a.role = .assistant := by
  obtain ⟨a, h1, h2, h3, _, _⟩ := sendMessage_accepted now q evs st hq hl hfresh
  exact ⟨a, h1, h2, h3⟩

theorem claim_C10_witness :
    ∃ a, (sendMessage 2 " hi "
          [⟨.sources, some [], some "s1", none, none⟩, ⟨.chunk, none, none, some "x", none⟩,
           ⟨.done, none, none, none, none⟩] initialChatState).1.messages
        = initialChatState.messages ++ [userMessageOf 2 " hi ", a]
      ∧ a.id = assistantIdOf 2 ∧ a.role = .assistant :=
  claim_C10_turn_frame 2 " hi "
    [⟨.sources, some [], some "s1", none, none⟩, ⟨.chunk, none, none, some "x", none⟩,
     ⟨.done, none, none, none, none⟩] initialChatState (by decide) rfl
    (by simp [initialChatState])

/-- Claim C2: processing a finite sequence of `chunk` events in a turn
makes the assistant message's content the concatenation of the events'
`content` fields in arrival order, a missing `content` field
contributing the empty string. -/
theorem claim_C2_chunk_concatenation (now : Nat) (q : String) (evs : List StreamEvent)
    (st : ChatState) (hq : ¬ jsTrim q = "") (hl : st.isLoading = false)
    (hfresh : ∀ m ∈ st.messages, m.id ≠ assistantIdOf now)
    (hc : ∀ e ∈ evs, e.type = .chunk) :
    (sendMessage now q evs st).1.messages
      = st.messages ++ [userMessageOf now q,
          { id := assistantIdOf now, role := .assistant, content := concatContents evs,
            sources := none, isStreaming := some true }] := by
  have hguard : ¬ (jsTrim q = "" ∨ st.isLoading = true) := by simp [hq, hl]
  have hkey := runLoop_chunks (assistantIdOf now) evs { fullContent := "", sources := [] }
    (st.messages ++ [userMessageOf now q]) (assistantMessageOf now) (startTurn now q st) hc
    (by simp [startTurn]) (startTurn_fresh now q st hfresh) rfl rfl
  have hcc : ("" : String) ++ concatContents evs = concatContents evs := by simp
  rw [hcc] at hkey
  rw [sendMessage, if_neg hguard, hkey]
  simp only [finishTurn]
  simp [assistantMessageOf, List.append_assoc]

theorem claim_C2_witness :
    (sendMessage 3 "q"
        [⟨.chunk, none, none, some "Hello ", none⟩, ⟨.chunk, none, none, none, none⟩,
         ⟨.chunk, none, none, some "world", none⟩] initialChatState).1.messages
      = initialChatState.messages ++ [userMessageOf 3 "q",
          { id := assistantIdOf 3, role := .assistant,
            content := concatContents
              [⟨.chunk, none, none, some "Hello ", none⟩, ⟨.chunk, none, none, none, none⟩,
               ⟨.chunk, none, none, some "world", none⟩],
            sources := none, isStreaming := some true }] :=
  claim_C2_chunk_concatenation 3 "q"
    [⟨.chunk, none, none, some "Hello ", none⟩, ⟨.chunk, none, none, none, none⟩,
     ⟨.chunk, none, none, some "world", none⟩] initialChatState
    (by decide) rfl (by simp [initialChatState]) (by decide)

theorem sendMessage_sid (now : Nat) (q : String) (evs : List StreamEvent) (st : ChatState)
    (hq : ¬ jsTrim q = "") (hl : st.isLoading = false) :
    (sendMessage now q evs st).1.sessionId = updSid st.sessionId evs := by
  have hguard : ¬ (jsTrim q = "" ∨ st.isLoading = true) := by simp [hq, hl]
  rw [sendMessage, if_neg hguard]
  show (finishTurn (assistantIdOf now)
      (runLoop (assistantIdOf now) { fullContent := "", sources := [] }
        (startTurn now q st) evs)).sessionId = updSid st.sessionId evs
  rw [finishTurn_sessionId, runLoop_sid]
  rfl

/-- Claim C7: session-id threading: the first turn's request carries no
session identifier; once the turn's `sources` events yield a stored
session id `s`, the state holds `some s`, every accepted later call
issues its request with that stored identifier, and `clearChat` resets
the identifier to `undefined`. -/
theorem claim_C7_session_threading (now now2 : Nat) (q q2 : String)
    (evs evs2 : List StreamEvent) (st : ChatState) (s : String) (b : Bool)
    (h0 : st.sessionId = none) (hq : ¬ jsTrim q = "") (hl : st.isLoading = false)
    (hupd : updSid none evs = some s) :
    (sendMessage now q evs st).2 = some { query := q, session_id := none }
      ∧ (sendMessage now q evs st).1.sessionId = some s
      ∧ (∀ st2, st2.sessionId = some s → st2.isLoading = false → ¬ jsTrim q2 = "" →
          (sendMessage now2 q2 evs2 st2).2 = some { query := q2, session_id := some s })
      ∧ (clearChat b (sendMessage now q evs st).1).1.sessionId = none := by
  have hguard : ¬ (jsTrim q = "" ∨ st.isLoading = true) := by simp [hq, hl]
  refine ⟨?_, ?_, ?_, rfl⟩
  · rw [sendMessage, if_neg hguard]
    simp [h0]
  · rw [sendMessage_sid now q evs st hq hl, h0]
    exact hupd
  · intro st2 h2sid h2l h2q
    have hguard2 : ¬ (jsTrim q2 = "" ∨ st2.isLoading = true) := by simp [h2q, h2l]
    rw [sendMessage, if_neg hguard2]
    simp [h2sid]

theorem claim_C7_witness :
    (sendMessage 4 "q"
        [⟨.sources, some [], some "s1", none, none⟩, ⟨.done, none, none, none, none⟩]
        initialChatState).1.sessionId = some "s1" :=
  (claim_C7_session_threading 4 5 "q" "q2"
      [⟨.sources, some [], some "s1", none, none⟩, ⟨.done, none, none, none, none⟩] []
      initialChatState "s1" true rfl (by decide) rfl (by decide)).2.1

/-- Claim C3 as frozen is false on the code: after two chunks `"A"`,
`"B"` and an `error` event, the turn's assistant record holds
`"Error: boom"` and the accumulated partial text `"AB"` is not retained
in it (not even as a substring). -/
theorem claim_C3_counterexample :
    ((sendMessage 0 "q"
        [⟨.chunk, none, none, some "A", none⟩, ⟨.chunk, none, none, some "B", none⟩,
         ⟨.error, none, none, none, some "boom"⟩] initialChatState).1.messages.map
        Message.content = ["q", "Error: boom"])
      ∧ ¬ ("AB".data <:+: "Error: boom".data) := by
  decide

/-- Claim C3 (amended): when the stream fails after `n ≥ 0` chunks, the
`n` chunk increments are processed and shown first — at the moment the
`error` event arrives, the assistant message's content is exactly their
concatenation — then the error is surfaced (the error state is set to
the event's message and the assistant message stops streaming), but the
assistant message's content is replaced by `Error: <message>`; the
partial answer text is not retained in the turn's record. -/
theorem claim_C3_error_after_chunks (now : Nat) (q : String) (chunks : List StreamEvent)
    (errEv : StreamEvent) (st : ChatState)
    (hq : ¬ jsTrim q = "") (hl : st.isLoading = false)
    (hfresh : ∀ m ∈ st.messages, m.id ≠ assistantIdOf now)
    (hc : ∀ e ∈ chunks, e.type = .chunk) (he : errEv.type = .error) :
    runLoop (assistantIdOf now) { fullContent := "", sources := [] } (startTurn now q st)
        (chunks ++ [errEv])
      = .thrown (jsOrStr errEv.message "Unknown error")
          { startTurn now q st with messages :=
              (st.messages ++ [userMessageOf now q])
                ++ [{ assistantMessageOf now with content := concatContents chunks }] }
      ∧ (sendMessage now q (chunks ++ [errEv]) st).1.error
          = some (jsOrStr errEv.message "Unknown error")
      ∧ (sendMessage now q (chunks ++ [errEv]) st).1.messages
          = st.messages ++ [userMessageOf now q,
              { id := assistantIdOf now, role := .assistant,
                content := "Error: " ++ jsOrStr errEv.message "Unknown error",
                sources := none, isStreaming := some false }] := by
  have hguard : ¬ (jsTrim q = "" ∨ st.isLoading = true) := by simp [hq, hl]
  have hkey := runLoop_chunks (assistantIdOf now) chunks { fullContent := "", sources := [] }
    (st.messages ++ [userMessageOf now q]) (assistantMessageOf now) (startTurn now q st) hc
    (by simp [startTurn]) (startTurn_fresh now q st hfresh) rfl rfl
  have hcc : ("" : String) ++ concatContents chunks = concatContents chunks := by simp
  rw [hcc] at hkey
  have hthrown : runLoop (assistantIdOf now) { fullContent := "", sources := [] }
      (startTurn now q st) (chunks ++ [errEv])
      = .thrown (jsOrStr errEv.message "Unknown error")
          { startTurn now q st with messages :=
              (st.messages ++ [userMessageOf now q])
                ++ [{ assistantMessageOf now with content := concatContents chunks }] } := by
    rw [runLoop_append, hkey]
    simp only [runLoop, he]
  refine ⟨hthrown, ?_, ?_⟩
  · rw [sendMessage, if_neg hguard, hthrown]
    rfl
  · rw [sendMessage, if_neg hguard, hthrown]
    simp only [finishTurn, catchTurn]
    rw [map_update (assistantIdOf now) _ (st.messages ++ [userMessageOf now q])
      { assistantMessageOf now with content := concatContents chunks }
      (startTurn_fresh now q st hfresh) rfl]
    simp [assistantMessageOf, List.append_assoc]

theorem claim_C3_witness :
    (sendMessage 0 "q2"
        ([⟨.chunk, none, none, some "A", none⟩, ⟨.chunk, none, none, some "B", none⟩]
          ++ [⟨.error, none, none, none, some "boom"⟩]) initialChatState).1.error
      = some "boom" := by
  have h := (claim_C3_error_after_chunks 0 "q2"
      [⟨.chunk, none, none, some "A", none⟩, ⟨.chunk, none, none, some "B", none⟩]
      ⟨.error, none, none, none, some "boom"⟩ initialChatState (by decide) rfl
      (by simp [initialChatState]) (by decide) rfl).2.1
  simpa [jsOrStr] using h

end AiTax
